import Mathlib

/-!
Shallow embedding of `src/analyzer.py` (Supply Chain Resilience Agent).

Python floats are modelled as exact real numbers (`ℝ`); `statistics.mean`,
`statistics.stdev` and Python's builtin `round` are embedded literally over
that model.  Network collaborators (the Open Prices API and the Open Food
Facts search) are parameters of the embedded functions: each embedded
collector takes the collaborator's response as an argument, and the
normalization / accumulation logic applied to that response is transcribed
from the source.  `time.sleep` calls only pace the HTTP traffic and have no
effect on the returned data, so they have no counterpart in the model.
In exact real arithmetic the `try/except` guards of the source can never
fire once the explicit guards (`len < 2`, `mean <= 0`) have passed, so the
model is total on those branches.
-/

namespace Analyzer

/-! ## Definitions: the embedding of `src/analyzer.py` -/

/-- Python's builtin `round` to an integer: round-half-to-even
(banker's rounding), modelled over exact reals. -/
noncomputable def pyRound (x : ℝ) : ℤ :=
  if x - ⌊x⌋ < 1 / 2 then ⌊x⌋
  else if 1 / 2 < x - ⌊x⌋ then ⌊x⌋ + 1
  else if Even ⌊x⌋ then ⌊x⌋ else ⌊x⌋ + 1

/-- Python's `round(x, n)` for `n` decimal digits. -/
noncomputable def roundTo (n : ℕ) (x : ℝ) : ℝ :=
  (pyRound (x * 10 ^ n) : ℝ) / 10 ^ n

/-- Embedding of `statistics.mean`: arithmetic mean (sum divided by length). -/
noncomputable def mean (l : List ℝ) : ℝ := l.sum / l.length

/-- Bessel-corrected sample variance (the square of `statistics.stdev`):
sum of squared deviations from the mean, divided by `n - 1`. -/
noncomputable def sampleVariance (l : List ℝ) : ℝ :=
  ((l.map fun x => (x - mean l) ^ 2).sum) / (l.length - 1)

/-- Embedding of `statistics.stdev`: Bessel-corrected sample standard deviation. -/
noncomputable def stdev (l : List ℝ) : ℝ := Real.sqrt (sampleVariance l)

/-- Embedding of `compute_risk` (analyzer.py lines 154-176): coefficient of variation as
risk score, with guards for fewer than 2 prices and non-positive mean.  The
returned score is `round(cv, 4)`; the tier is chosen from the unrounded `cv`. -/
noncomputable def compute_risk (prices : List ℝ) : Option ℝ × String :=
  if prices.length < 2 then (none, "NO_DATA")
  else
    let mean_val := mean prices
    if mean_val ≤ 0 then (none, "NO_DATA")
    else
      let cv := stdev prices / mean_val
      if cv > 0.5 then (some (roundTo 4 cv), "CRITICAL")
      else if cv > 0.3 then (some (roundTo 4 cv), "WARNING")
      else (some (roundTo 4 cv), "STABLE")

/-- The local variable `cv` of `compute_risk` (line 168). -/
noncomputable def cvOf (prices : List ℝ) : ℝ := stdev prices / mean prices

/-- The fixed threshold tier map of the spec (§4.2): `cv > 0.5 → CRITICAL`,
`cv > 0.3 → WARNING`, else `STABLE`; used to state recoverability of the
status from a score. -/
noncomputable def statusOfCv (cv : ℝ) : String :=
  if cv > 0.5 then "CRITICAL" else if cv > 0.3 then "WARNING" else "STABLE"

/-- A normalized price record (the canonical `PriceRecord` schema). -/
structure PriceRecord where
  price : ℝ
  currency : String
  country : String
  city : String
  date : String
  product_code : String

/-- The nested `location` object of a raw upstream item. -/
structure RawLocation where
  osm_address_country : Option String
  osm_address_city : Option String

/-- One raw upstream item, as the normalizer sees it.  `price` models
`item.get("price")` followed by `float(...)`: the outer `none` is an absent
or JSON-null field (line 82's `price is None`), `some none` is a present
value on which `float` raises (lines 84-87), and `some (some v)` is a value
that parses to the number `v`.  The remaining fields are the defensively
extracted string fields, `none` when absent or null. -/
structure RawItem where
  price : Option (Option ℝ)
  currency : Option String
  location : Option RawLocation
  date : Option String

/-- Python's `str.strip()`: remove leading and trailing whitespace. -/
def pyStrip (s : String) : String :=
  String.mk (((s.data.dropWhile Char.isWhitespace).reverse.dropWhile
    Char.isWhitespace).reverse)

/-- The per-item normalization body of `fetch_price_records_by_code`
(lines 80-104): skip the item unless its price parses; extract the string
fields defensively, defaulting blank country/city to `"Unknown"`. -/
def normalize_item (product_code : String) (item : RawItem) : Option PriceRecord :=
  match item.price with
  | none => none
  | some none => none
  | some (some price_f) =>
    let currency := pyStrip (item.currency.getD "")
    let loc := item.location.getD ⟨none, none⟩
    let country := pyStrip (loc.osm_address_country.getD "")
    let city := pyStrip (loc.osm_address_city.getD "")
    let date := pyStrip (item.date.getD "")
    some { price := price_f
           currency := currency
           country := if country = "" then "Unknown" else country
           city := if city = "" then "Unknown" else city
           date := date
           product_code := product_code }

/-- The whole normalization loop of `fetch_price_records_by_code` applied to
the parsed API response: one record per parseable item. -/
def normalize_items (product_code : String) (items : List RawItem) : List PriceRecord :=
  items.filterMap (normalize_item product_code)

/-- The example batch of the spec:
`[{"price":"10"}, {"price":null}, {"price":"bad"}]`. -/
def exampleBatch : List RawItem :=
  [⟨some (some 10), none, none, none⟩, ⟨none, none, none, none⟩,
   ⟨some none, none, none, none⟩]

/-- The accumulation loop of `fetch_price_records` (lines 128-134): extend
the output with each per-code fetch, stopping early once `size` records have
been accumulated.  The `time.sleep(0.5)` pacing between iterations does not
affect the returned data. -/
def fetch_accumulate (fetch_by_code : String → ℕ → List PriceRecord)
    (per_code size : ℕ) : List String → List PriceRecord → List PriceRecord
  | [], out => out
  | code :: rest, out =>
    let out2 := out ++ fetch_by_code code per_code
    if size ≤ out2.length then out2
    else fetch_accumulate fetch_by_code per_code size rest out2

/-- Embedding of `fetch_price_records` (lines 110-135), parameterized by the two
collaborators: `search` is `search_product_codes` (keyword to product
codes) and `fetch_by_code` is `fetch_price_records_by_code` (normalized
records for one code at a requested size). -/
def fetch_price_records (search : String → List String)
    (fetch_by_code : String → ℕ → List PriceRecord)
    (commodity : String) (size : ℕ) : List PriceRecord :=
  let codes := search commodity
  if codes = [] then []
  else
    let per_code := max 5 (size / max 1 codes.length)
    (fetch_accumulate fetch_by_code per_code size codes []).take size

/-- One row of `compute_region_risks` output. -/
structure RegionRow where
  region : String
  mean_price : Option ℝ
  risk_score : Option ℝ
  status : String
  sample_size : ℕ

/-- Embedding of `_region_key_country` (lines 179-180): `record.get("country") or "Unknown"`. -/
def region_key_country (r : PriceRecord) : String :=
  if r.country = "" then "Unknown" else r.country

/-- Embedding of `_region_key_city` (lines 183-186): `f"{city}, {country}"` with the same
falsy-value defaults. -/
def region_key_city (r : PriceRecord) : String :=
  (if r.city = "" then "Unknown" else r.city) ++ ", " ++
    (if r.country = "" then "Unknown" else r.country)

/-- The grouping keys in `defaultdict` iteration order: first occurrence
order (Python dicts iterate in key-insertion order). -/
def uniqKeys (l : List String) : List String :=
  l.foldl (fun acc k => if k ∈ acc then acc else acc ++ [k]) []

/-- The Python sort key of line 225:
`(risk_score is None, -(risk_score or 0.0), -sample_size)`, compared
lexicographically. -/
noncomputable def sortKey (r : RegionRow) : Lex (ℕ × Lex (ℝ × ℤ)) :=
  toLex ((if r.risk_score.isNone then 1 else 0),
    toLex (-(r.risk_score.getD 0), -(r.sample_size : ℤ)))

/-- The comparison actually used for sorting region rows. -/
noncomputable def rowLe (a b : RegionRow) : Bool := decide (sortKey a ≤ sortKey b)

/-- The loop body of `compute_region_risks` (lines 208-221): the group of
one region key, skipped when it has fewer than `min_samples` prices,
otherwise scored into a `RegionRow`. -/
noncomputable def scoreRegion (records : List PriceRecord)
    (key_fn : PriceRecord → String) (min_samples : ℕ) (region : String) :
    Option RegionRow :=
  let prices := (records.filter fun r => key_fn r = region).map fun r => r.price
  if prices.length < min_samples then none
  else
    let rs := compute_risk prices
    some { region := region
           mean_price := if prices.isEmpty then none
                         else some (roundTo 2 (mean prices))
           risk_score := rs.1
           status := rs.2
           sample_size := prices.length }

/-- Embedding of `compute_region_risks` (lines 189-227): group by the chosen key, drop
groups below `min_samples`, score each surviving group, sort by the Python
key of line 225, truncate to `limit`. -/
noncomputable def compute_region_risks (records : List PriceRecord)
    (level : String) (min_samples limit : ℕ) : List RegionRow :=
  if records.isEmpty then []
  else
    let key_fn := if level = "country" then region_key_country else region_key_city
    (((uniqKeys (records.map key_fn)).filterMap
      (scoreRegion records key_fn min_samples)).mergeSort rowLe).take limit

/-- The per-commodity report assembled by `analyze_commodity`. -/
structure CommodityReport where
  name : String
  mean_price : Option ℝ
  risk_score : Option ℝ
  status : String
  currency : String
  sample_size : ℕ
  regions_by_country : List RegionRow
  regions_by_city : List RegionRow

/-- Embedding of `max(set(currencies), key=currencies.count)` (line 238): a most frequent
element.  Python iterates the set in unspecified order, so its tie-break is
unspecified; the model fixes first-seen order, and no claim depends on the
tie-break. -/
def majority (l : List String) : String :=
  ((uniqKeys l).argmax fun c => l.count c).getD ""

/-- Embedding of `analyze_commodity` (lines 230-255), parameterized by the collector
(`fetch_price_records` applied to a commodity keyword with default size). -/
noncomputable def analyze_commodity (fetch : String → List PriceRecord)
    (commodity : String) : CommodityReport :=
  let records := fetch commodity
  let prices := records.map fun r => r.price
  let currencies := (records.map fun r => r.currency).filter fun c => c ≠ ""
  let currency := if currencies.isEmpty then "" else majority currencies
  let rs := compute_risk prices
  { name := commodity
    mean_price := if prices.isEmpty then none else some (roundTo 2 (mean prices))
    risk_score := rs.1
    status := rs.2
    currency := if currency = "" then "N/A" else currency
    sample_size := prices.length
    regions_by_country := compute_region_risks records "country" 5 5
    regions_by_city := compute_region_risks records "city" 5 5 }

/-- The module constant `DEFAULT_COMMODITIES` (line 12). -/
def DEFAULT_COMMODITIES : List String := ["rice", "milk", "eggs", "oil", "wheat"]

/-- Embedding of `analyze_all` (lines 258-268): one `analyze_commodity` call per default
commodity, in order.  The `time.sleep(1)` pacing between iterations does not
affect the returned data. -/
noncomputable def analyze_all (fetch : String → List PriceRecord) : List CommodityReport :=
  DEFAULT_COMMODITIES.map (analyze_commodity fetch)

/-! ## Theorems -/

theorem pyRound_eq_of_le_of_lt_half (x : ℝ) (k : ℤ) (h1 : (k : ℝ) ≤ x)
    (h2 : x < (k : ℝ) + 1 / 2) : pyRound x = k := by
  have hfl : ⌊x⌋ = k := Int.floor_eq_iff.mpr ⟨h1, by linarith⟩
  unfold pyRound
  rw [hfl, if_pos (by linarith)]

theorem roundTo_intMul (n : ℕ) (x : ℝ) (k : ℤ) (h1 : (k : ℝ) ≤ x * 10 ^ n)
    (h2 : x * 10 ^ n < (k : ℝ) + 1 / 2) : roundTo n x = (k : ℝ) / 10 ^ n := by
  unfold roundTo
  rw [pyRound_eq_of_le_of_lt_half _ k h1 h2]

theorem compute_risk_eq (prices : List ℝ) (h2 : 2 ≤ prices.length)
    (hm : 0 < mean prices) :
    compute_risk prices = (some (roundTo 4 (cvOf prices)), statusOfCv (cvOf prices)) := by
  unfold compute_risk statusOfCv cvOf
  rw [if_neg (by omega), if_neg (not_le.mpr hm)]
  dsimp only
  split_ifs <;> rfl

theorem mean_pair (a b : ℝ) : mean [a, b] = (a + b) / 2 := by
  simp [mean]

theorem mean_triple (a b c : ℝ) : mean [a, b, c] = (a + b + c) / 3 := by
  simp [mean]
  ring

theorem sampleVariance_pair (a b : ℝ) :
    sampleVariance [a, b] = (a - b) ^ 2 / 2 := by
  simp [sampleVariance, mean_pair]
  ring

theorem sampleVariance_246 : sampleVariance [(2 : ℝ), 4, 6] = 4 := by
  simp [sampleVariance, mean_triple]
  norm_num

theorem stdev_246 : stdev [(2 : ℝ), 4, 6] = 2 := by
  rw [stdev, sampleVariance_246, show (4 : ℝ) = 2 ^ 2 by norm_num,
    Real.sqrt_sq (by norm_num)]

theorem cvOf_246 : cvOf [(2 : ℝ), 4, 6] = 0.5 := by
  rw [cvOf, stdev_246, mean_triple]
  norm_num

theorem mean_246_pos : 0 < mean [(2 : ℝ), 4, 6] := by
  rw [mean_triple]
  norm_num

theorem roundTo_4_half : roundTo 4 (0.5 : ℝ) = 0.5 := by
  rw [roundTo_intMul 4 (0.5 : ℝ) 5000 (by norm_num) (by norm_num)]
  norm_num

theorem compute_risk_246 : compute_risk [(2 : ℝ), 4, 6] = (some 0.5, "WARNING") := by
  rw [compute_risk_eq _ (by simp) mean_246_pos, cvOf_246, roundTo_4_half,
    statusOfCv, if_neg (by norm_num), if_pos (by norm_num)]

/-- Claim C3: a price list of length below 2, and a price list with
non-positive arithmetic mean, both yield `(None, NO_DATA)` from
`compute_risk`; in the exact-arithmetic model the remaining computation is
total, so nothing can propagate out of the guarded region. -/
theorem score_no_data (prices : List ℝ) :
    (prices.length < 2 → compute_risk prices = (none, "NO_DATA")) ∧
    (mean prices ≤ 0 → compute_risk prices = (none, "NO_DATA")) := by
  constructor
  · intro h
    unfold compute_risk
    rw [if_pos h]
  · intro h
    unfold compute_risk
    by_cases hl : prices.length < 2
    · rw [if_pos hl]
    · rw [if_neg hl, if_pos h]

theorem score_no_data_witness :
    mean [(-1 : ℝ), -1] ≤ 0 ∧ compute_risk [(-1 : ℝ), -1] = (none, "NO_DATA") :=
  ⟨by rw [mean_pair]; norm_num, (score_no_data _).2 (by rw [mean_pair]; norm_num)⟩

/-- Claim C2: the tier thresholds of `compute_risk` are strict: on any price
list passing the guards, `cv = 0.5` yields `WARNING` (not `CRITICAL`),
`cv = 0.3` yields `STABLE`, and in general `cv > 0.5` maps to `CRITICAL`,
`0.3 < cv ≤ 0.5` to `WARNING`, `cv ≤ 0.3` to `STABLE`. -/
theorem tier_thresholds (prices : List ℝ) (h2 : 2 ≤ prices.length)
    (hm : 0 < mean prices) :
    (cvOf prices = 0.5 → (compute_risk prices).2 = "WARNING") ∧
    (cvOf prices = 0.3 → (compute_risk prices).2 = "STABLE") ∧
    (0.5 < cvOf prices → (compute_risk prices).2 = "CRITICAL") ∧
    (0.3 < cvOf prices → cvOf prices ≤ 0.5 → (compute_risk prices).2 = "WARNING") ∧
    (cvOf prices ≤ 0.3 → (compute_risk prices).2 = "STABLE") := by
  rw [compute_risk_eq prices h2 hm]
  unfold statusOfCv
  refine ⟨fun h => ?_, fun h => ?_, fun h => ?_, fun h h' => ?_, fun h => ?_⟩
  · rw [h, if_neg (by norm_num), if_pos (by norm_num)]
  · rw [h, if_neg (by norm_num), if_neg (by norm_num)]
  · rw [if_pos (show cvOf prices > 0.5 from h)]
  · rw [if_neg (not_lt.mpr h'), if_pos (show cvOf prices > 0.3 from h)]
  · rw [if_neg (not_lt.mpr (h.trans (by norm_num))), if_neg (not_lt.mpr h)]

theorem tier_thresholds_witness :
    2 ≤ [(2 : ℝ), 4, 6].length ∧ 0 < mean [(2 : ℝ), 4, 6] ∧
    cvOf [(2 : ℝ), 4, 6] = 0.5 ∧ (compute_risk [(2 : ℝ), 4, 6]).2 = "WARNING" :=
  ⟨by simp, mean_246_pos, cvOf_246,
    (tier_thresholds [(2 : ℝ), 4, 6] (by simp) mean_246_pos).1 cvOf_246⟩

theorem sampleVariance_100s : sampleVariance [(100 : ℝ), 100, 100] = 0 := by
  simp [sampleVariance, mean_triple]
  norm_num

theorem compute_risk_100s :
    compute_risk [(100 : ℝ), 100, 100] = (some 0, "STABLE") := by
  have hm : mean [(100 : ℝ), 100, 100] = 100 := by rw [mean_triple]; norm_num
  have hcv : cvOf [(100 : ℝ), 100, 100] = 0 := by
    rw [cvOf, stdev, sampleVariance_100s, Real.sqrt_zero, hm]
    norm_num
  rw [compute_risk_eq _ (by simp) (by rw [hm]; norm_num), hcv]
  rw [roundTo_intMul 4 0 0 (by norm_num) (by norm_num)]
  rw [statusOfCv, if_neg (by norm_num), if_neg (by norm_num)]
  norm_num

theorem sampleVariance_100_150 : sampleVariance [(100 : ℝ), 150] = 1250 := by
  rw [sampleVariance_pair]
  norm_num

theorem sqrt1250_lb : (35.35 : ℝ) ≤ Real.sqrt 1250 := by
  rw [Real.le_sqrt (by norm_num) (by norm_num)]
  norm_num

theorem sqrt1250_ub : Real.sqrt 1250 < 35.35625 := by
  rw [Real.sqrt_lt' (by norm_num)]
  norm_num

theorem stdev_100_150_bounds :
    35.355 < stdev [(100 : ℝ), 150] ∧ stdev [(100 : ℝ), 150] < 35.356 := by
  rw [stdev, sampleVariance_100_150]
  constructor
  · rw [Real.lt_sqrt (by norm_num)]
    norm_num
  · rw [Real.sqrt_lt' (by norm_num)]
    norm_num

theorem compute_risk_100_150 :
    compute_risk [(100 : ℝ), 150] = (some 0.2828, "STABLE") := by
  have hm : mean [(100 : ℝ), 150] = 125 := by rw [mean_pair]; norm_num
  have hcv : cvOf [(100 : ℝ), 150] = Real.sqrt 1250 / 125 := by
    rw [cvOf, stdev, sampleVariance_100_150, hm]
  have h3 : Real.sqrt 1250 ≤ 37.5 := by
    rw [Real.sqrt_le_left (by norm_num)]
    norm_num
  rw [compute_risk_eq _ (by simp) (by rw [hm]; norm_num), hcv]
  have hst : statusOfCv (Real.sqrt 1250 / 125) = "STABLE" := by
    rw [statusOfCv, if_neg (by rw [not_lt]; linarith), if_neg (by rw [not_lt]; linarith)]
  have hr : roundTo 4 (Real.sqrt 1250 / 125) = 0.2828 := by
    rw [roundTo_intMul 4 _ 2828
      (by push_cast; nlinarith [sqrt1250_lb])
      (by push_cast; nlinarith [sqrt1250_ub])]
    norm_num
  rw [hst, hr]

/-- Claim C9: the reference values of the spec: `score([100, 100, 100])`
returns risk score `0.0` with status `STABLE`, and `score([100, 150])` has
mean `125`, Bessel-corrected sample standard deviation `35.355...`, and
returns the rounded coefficient of variation `0.2828` with status `STABLE`. -/
theorem reference_values :
    compute_risk [(100 : ℝ), 100, 100] = (some 0, "STABLE") ∧
    mean [(100 : ℝ), 150] = 125 ∧
    35.355 < stdev [(100 : ℝ), 150] ∧ stdev [(100 : ℝ), 150] < 35.356 ∧
    compute_risk [(100 : ℝ), 150] = (some 0.2828, "STABLE") :=
  ⟨compute_risk_100s, by rw [mean_pair]; norm_num,
    stdev_100_150_bounds.1, stdev_100_150_bounds.2, compute_risk_100_150⟩

/-- Claim C1 counterexample: on the price list `[64643, 135357]` the
coefficient of variation is slightly above `0.5`, so `compute_risk` returns
status `CRITICAL`, yet the returned 4-decimal-rounded risk score is exactly
`0.5`, and applying the fixed thresholds to `0.5` yields `WARNING`: the
status is not recoverable from the returned risk score. -/
theorem risk_recover_cex :
    (compute_risk [(64643 : ℝ), 135357]).1 = some 0.5 ∧
    (compute_risk [(64643 : ℝ), 135357]).2 = "CRITICAL" ∧
    statusOfCv 0.5 = "WARNING" := by
  have hv : sampleVariance [(64643 : ℝ), 135357] = 2500234898 := by
    rw [sampleVariance_pair]
    norm_num
  have hm : mean [(64643 : ℝ), 135357] = 100000 := by rw [mean_pair]; norm_num
  have hcv : cvOf [(64643 : ℝ), 135357] = Real.sqrt 2500234898 / 100000 := by
    rw [cvOf, stdev, hv, hm]
  have hlb : (50000 : ℝ) < Real.sqrt 2500234898 := by
    rw [Real.lt_sqrt (by norm_num)]
    norm_num
  have hub : Real.sqrt 2500234898 < 50005 := by
    rw [Real.sqrt_lt' (by norm_num)]
    norm_num
  have heq := compute_risk_eq [(64643 : ℝ), 135357] (by simp) (by rw [hm]; norm_num)
  rw [hcv] at heq
  have hst : statusOfCv (Real.sqrt 2500234898 / 100000) = "CRITICAL" := by
    rw [statusOfCv, if_pos (by show (0.5 : ℝ) < _; rw [lt_div_iff₀ (by norm_num)]; linarith)]
  have hr : roundTo 4 (Real.sqrt 2500234898 / 100000) = 0.5 := by
    rw [roundTo_intMul 4 _ 5000
      (by push_cast; nlinarith [hlb])
      (by push_cast; nlinarith [hub])]
    norm_num
  refine ⟨?_, ?_, ?_⟩
  · rw [heq, hr]
  · rw [heq, hst]
  · rw [statusOfCv, if_neg (by norm_num), if_pos (by norm_num)]

/-- Claim C1 (amended): `status = NO_DATA` iff the risk score is absent, and
otherwise the returned status is obtained by applying the fixed thresholds to
the unrounded coefficient of variation, of which the returned risk score is
the 4-decimal rounding; applying the thresholds to the rounded score itself
can disagree when rounding crosses a tier boundary. -/
theorem risk_status_amended (prices : List ℝ) :
    ((compute_risk prices).2 = "NO_DATA" ↔ (compute_risk prices).1 = none) ∧
    ((compute_risk prices).1 ≠ none →
      compute_risk prices = (some (roundTo 4 (cvOf prices)), statusOfCv (cvOf prices))) := by
  by_cases hl : prices.length < 2
  · have h : compute_risk prices = (none, "NO_DATA") := by
      unfold compute_risk
      rw [if_pos hl]
    rw [h]
    exact ⟨by simp, fun hne => absurd rfl hne⟩
  · by_cases hm : mean prices ≤ 0
    · have h : compute_risk prices = (none, "NO_DATA") := by
        unfold compute_risk
        rw [if_neg hl, if_pos hm]
      rw [h]
      exact ⟨by simp, fun hne => absurd rfl hne⟩
    · have heq := compute_risk_eq prices (by omega) (not_le.mp hm)
      rw [heq]
      refine ⟨⟨fun h => ?_, fun h => ?_⟩, fun _ => rfl⟩
      · exfalso
        rw [show ((some (roundTo 4 (cvOf prices)), statusOfCv (cvOf prices)).2 : String)
             = statusOfCv (cvOf prices) from rfl, statusOfCv] at h
        split_ifs at h <;> exact absurd h (by decide)
      · exact absurd h (by simp)

theorem risk_status_amended_witness :
    ((compute_risk [(2 : ℝ), 4, 6]).2 = "NO_DATA" ↔ (compute_risk [(2 : ℝ), 4, 6]).1 = none) ∧
    compute_risk [(2 : ℝ), 4, 6]
      = (some (roundTo 4 (cvOf [(2 : ℝ), 4, 6])), statusOfCv (cvOf [(2 : ℝ), 4, 6])) :=
  ⟨(risk_status_amended _).1,
    (risk_status_amended [(2 : ℝ), 4, 6]).2 (by rw [compute_risk_246]; simp)⟩

/-- Claim C4: the normalizer emits a record iff the raw item's price field
is present and parses; for emitted records, absent or blank `country`/`city`
default to `"Unknown"` and absent `currency`/`date` default to the empty
string; the spec's example batch normalizes to exactly one record, with
price `10.0`. -/
theorem normalizer_contract (product_code : String) (item : RawItem) :
    ((normalize_item product_code item).isSome ↔ ∃ v, item.price = some (some v)) ∧
    (∀ rec, normalize_item product_code item = some rec →
      item.price = some (some rec.price) ∧
      (pyStrip ((item.location.getD ⟨none, none⟩).osm_address_country.getD "") = "" →
        rec.country = "Unknown") ∧
      (pyStrip ((item.location.getD ⟨none, none⟩).osm_address_city.getD "") = "" →
        rec.city = "Unknown") ∧
      (item.currency = none → rec.currency = "") ∧
      (item.date = none → rec.date = "")) ∧
    ((normalize_items "c" exampleBatch).map (fun r => r.price) = [10]) := by
  refine ⟨?_, ?_, ?_⟩
  · unfold normalize_item
    match h : item.price with
    | none => simp
    | some none => simp
    | some (some v) => simp
  · intro rec hrec
    unfold normalize_item at hrec
    match h : item.price with
    | none => rw [h] at hrec; exact absurd hrec (by simp)
    | some none => rw [h] at hrec; exact absurd hrec (by simp)
    | some (some v) =>
      rw [h] at hrec
      simp only [Option.some_inj] at hrec
      subst hrec
      refine ⟨rfl, fun hc => ?_, fun hc => ?_, fun hc => ?_, fun hc => ?_⟩
      · simp [hc]
      · simp [hc]
      · simp only [hc]
        decide
      · simp only [hc]
        decide
  · rfl

theorem normalizer_contract_witness :
    (normalize_item "c" ⟨some (some 10), none, none, none⟩).isSome ∧
    (normalize_items "c" exampleBatch).map (fun r => r.price) = [10] :=
  ⟨(normalizer_contract "c" ⟨some (some 10), none, none, none⟩).1.mpr ⟨10, rfl⟩,
    (normalizer_contract "c" ⟨some (some 10), none, none, none⟩).2.2⟩

theorem fetch_accumulate_eats (fetch_by_code : String → ℕ → List PriceRecord)
    (per_code size : ℕ) (codes : List String) :
    ∀ out, ∃ rest,
      out ++ codes.flatMap (fun c => fetch_by_code c per_code)
        = fetch_accumulate fetch_by_code per_code size codes out ++ rest := by
  induction codes with
  | nil => exact fun out => ⟨[], by simp [fetch_accumulate]⟩
  | cons c cs ih =>
    intro out
    unfold fetch_accumulate
    dsimp only
    split_ifs with h
    · exact ⟨cs.flatMap (fun x => fetch_by_code x per_code), by simp⟩
    · obtain ⟨rest, hrest⟩ := ih (out ++ fetch_by_code c per_code)
      exact ⟨rest, by rw [← hrest]; simp⟩

theorem fetch_accumulate_long_enough (fetch_by_code : String → ℕ → List PriceRecord)
    (per_code size : ℕ) (codes : List String) :
    ∀ out, min size (out ++ codes.flatMap (fun c => fetch_by_code c per_code)).length
      ≤ (fetch_accumulate fetch_by_code per_code size codes out).length := by
  induction codes with
  | nil => intro out; simp [fetch_accumulate]
  | cons c cs ih =>
    intro out
    unfold fetch_accumulate
    dsimp only
    split_ifs with h
    · omega
    · refine le_trans ?_ (ih (out ++ fetch_by_code c per_code))
      simp

/-- Claim C8: in the two-step collector, an empty keyword resolution yields
the empty list; otherwise each per-code fetch requests
`max(5, targetSize / codeCount)` records, the result is a prefix of the
concatenation of the per-code fetches in code order (fetching stops early
once `targetSize` records are accumulated), and the result is truncated to
`targetSize`: its length is exactly the minimum of `targetSize` and the
total number of records the per-code fetches can supply. -/
theorem two_step_collector (search : String → List String)
    (fetch_by_code : String → ℕ → List PriceRecord)
    (commodity : String) (size : ℕ) :
    (search commodity = [] → fetch_price_records search fetch_by_code commodity size = []) ∧
    (∃ rest, (search commodity).flatMap
        (fun c => fetch_by_code c (max 5 (size / max 1 (search commodity).length)))
      = fetch_price_records search fetch_by_code commodity size ++ rest) ∧
    (fetch_price_records search fetch_by_code commodity size).length
      = min size ((search commodity).flatMap
          (fun c => fetch_by_code c (max 5 (size / max 1 (search commodity).length)))).length := by
  unfold fetch_price_records
  dsimp only
  split_ifs with h
  · rw [h]
    exact ⟨fun _ => rfl, ⟨[], by simp⟩, by simp⟩
  · refine ⟨fun hc => absurd hc h, ?_, ?_⟩
    · obtain ⟨rest, hrest⟩ := fetch_accumulate_eats fetch_by_code
        (max 5 (size / max 1 (search commodity).length)) size (search commodity) []
      rw [List.nil_append] at hrest
      refine ⟨(fetch_accumulate fetch_by_code
        (max 5 (size / max 1 (search commodity).length)) size
        (search commodity) []).drop size ++ rest, ?_⟩
      rw [hrest, ← List.append_assoc, List.take_append_drop]
    · obtain ⟨rest, hrest⟩ := fetch_accumulate_eats fetch_by_code
        (max 5 (size / max 1 (search commodity).length)) size (search commodity) []
      have hlong := fetch_accumulate_long_enough fetch_by_code
        (max 5 (size / max 1 (search commodity).length)) size (search commodity) []
      rw [List.nil_append] at hrest hlong
      have hle : (fetch_accumulate fetch_by_code
          (max 5 (size / max 1 (search commodity).length)) size (search commodity) []).length
          ≤ ((search commodity).flatMap
            (fun c => fetch_by_code c (max 5 (size / max 1 (search commodity).length)))).length := by
        rw [hrest]
        simp
      rw [List.length_take]
      omega

theorem two_step_collector_witness :
    fetch_price_records (fun _ => []) (fun _ _ => []) "rice" 50 = [] ∧
    (fetch_price_records (fun _ => ["a", "b"])
      (fun c n => List.replicate n ⟨1, c, "", "", "", ""⟩) "rice" 7).length
      = min 7 ((["a", "b"] : List String).flatMap (fun c =>
          List.replicate (max 5 (7 / max 1 (["a", "b"] : List String).length))
          (⟨1, c, "", "", "", ""⟩ : PriceRecord))).length :=
  ⟨(two_step_collector (fun _ => []) (fun _ _ => []) "rice" 50).1 rfl,
    (two_step_collector (fun _ => ["a", "b"])
      (fun c n => List.replicate n ⟨1, c, "", "", "", ""⟩) "rice" 7).2.2⟩

theorem rowLe_trans (a b c : RegionRow) : rowLe a b → rowLe b c → rowLe a c := by
  unfold rowLe
  simp only [decide_eq_true_eq]
  exact le_trans

theorem rowLe_total (a b : RegionRow) : rowLe a b || rowLe b a := by
  unfold rowLe
  rcases le_total (sortKey a) (sortKey b) with h | h <;> simp [h]

/-- The Python sort key order implies the ranking relation of the spec. -/
theorem rowLe_imp (a b : RegionRow) (h : rowLe a b = true) :
    (a.risk_score = none → b.risk_score = none) ∧
    ∀ x y, a.risk_score = some x → b.risk_score = some y →
      y < x ∨ (y = x ∧ b.sample_size ≤ a.sample_size) := by
  unfold rowLe sortKey at h
  rw [decide_eq_true_eq, Prod.Lex.le_iff] at h
  constructor
  · intro ha
    cases hb : b.risk_score with
    | none => rfl
    | some y =>
      exfalso
      rw [ha, hb] at h
      simp at h
  · intro x y hx hy
    rw [hx, hy] at h
    simp only [Option.isNone_some, Bool.false_eq_true, if_false, Option.getD_some] at h
    rcases h with h | ⟨-, h⟩
    · exact absurd h (lt_irrefl 0)
    · rw [Prod.Lex.le_iff] at h
      rcases h with h | ⟨h1, h2⟩
      · exact Or.inl (by dsimp at h; linarith)
      · refine Or.inr ⟨by dsimp at h1; linarith, ?_⟩
        dsimp at h2
        omega

/-- Claim C5: the output of `compute_region_risks` is sorted: every entry
with a defined risk score precedes every `NO_DATA` (absent-score) entry;
among defined scores the order is descending by risk score, with ties broken
by descending sample size. -/
theorem region_sort_order (records : List PriceRecord) (level : String)
    (min_samples limit : ℕ) :
    (compute_region_risks records level min_samples limit).Pairwise fun a b =>
      (a.risk_score = none → b.risk_score = none) ∧
      ∀ x y, a.risk_score = some x → b.risk_score = some y →
        y < x ∨ (y = x ∧ b.sample_size ≤ a.sample_size) := by
  unfold compute_region_risks
  split_ifs
  · simp
  all_goals
    exact List.Pairwise.sublist (List.take_sublist _ _)
      ((List.sorted_mergeSort rowLe_trans rowLe_total _).imp fun h => rowLe_imp _ _ h)

theorem region_sort_order_witness :
    (compute_region_risks [] "country" 5 5).Pairwise fun a b =>
      (a.risk_score = none → b.risk_score = none) ∧
      ∀ x y, a.risk_score = some x → b.risk_score = some y →
        y < x ∨ (y = x ∧ b.sample_size ≤ a.sample_size) :=
  region_sort_order [] "country" 5 5

/-- Claim C6: every group emitted by `compute_region_risks` has sample size
at least `min_samples`, and the returned list has at most `limit` entries. -/
theorem region_filter_limit (records : List PriceRecord) (level : String)
    (min_samples limit : ℕ) :
    (∀ row ∈ compute_region_risks records level min_samples limit,
      min_samples ≤ row.sample_size) ∧
    (compute_region_risks records level min_samples limit).length ≤ limit := by
  unfold compute_region_risks
  split_ifs
  · simp
  all_goals
    refine ⟨fun row hrow => ?_, List.length_take_le _ _⟩
    have h1 := List.mem_of_mem_take hrow
    rw [List.mem_mergeSort, List.mem_filterMap] at h1
    obtain ⟨k, -, hmk⟩ := h1
    simp only [scoreRegion] at hmk
    split_ifs at hmk with hlen hempty
    all_goals
      rw [Option.some_inj] at hmk
      subst hmk
      exact Nat.le_of_not_lt hlen

theorem region_filter_limit_witness :
    (compute_region_risks [] "country" 5 5).length ≤ 5 :=
  (region_filter_limit [] "country" 5 5).2

/-- Claim C7: `analyze_all` returns exactly one report per default commodity
(rice, milk, eggs, oil, wheat), in that order; a commodity whose fetch
yields no records still produces an entry, with status `NO_DATA` and sample
size `0`. -/
theorem analyze_all_shape (fetch : String → List PriceRecord) :
    (analyze_all fetch).map (fun r => r.name) = DEFAULT_COMMODITIES ∧
    ∀ report ∈ analyze_all fetch, fetch report.name = [] →
      report.status = "NO_DATA" ∧ report.sample_size = 0 := by
  constructor
  · unfold analyze_all
    rw [List.map_map]
    have h : ((fun r => CommodityReport.name r) ∘ analyze_commodity fetch)
        = fun c => c := rfl
    rw [h, List.map_id']
  · intro report hrep hfetch
    unfold analyze_all at hrep
    rw [List.mem_map] at hrep
    obtain ⟨c, -, hc⟩ := hrep
    subst hc
    have hname : (analyze_commodity fetch c).name = c := rfl
    rw [hname] at hfetch
    have hst : (analyze_commodity fetch c).status
        = (compute_risk ((fetch c).map fun r => r.price)).2 := rfl
    have hss : (analyze_commodity fetch c).sample_size
        = ((fetch c).map fun r => r.price).length := rfl
    rw [hst, hss, hfetch]
    exact ⟨by simp [compute_risk], rfl⟩

theorem analyze_all_shape_witness :
    (analyze_all fun _ => []).map (fun r => r.name) = DEFAULT_COMMODITIES ∧
    (analyze_commodity (fun _ => []) "rice").status = "NO_DATA" ∧
    (analyze_commodity (fun _ => []) "rice").sample_size = 0 :=
  ⟨(analyze_all_shape fun _ => []).1,
    (analyze_all_shape fun _ => []).2 (analyze_commodity (fun _ => []) "rice")
      (by unfold analyze_all DEFAULT_COMMODITIES; simp) rfl⟩

/-- Claim C10: in every report produced by `analyze_commodity`, `mean_price`
is absent iff `sample_size = 0`; when present it is the arithmetic mean of
all collected prices rounded to 2 decimal places. -/
theorem mean_price_contract (fetch : String → List PriceRecord) (commodity : String) :
    ((analyze_commodity fetch commodity).mean_price = none ↔
      (analyze_commodity fetch commodity).sample_size = 0) ∧
    ∀ m, (analyze_commodity fetch commodity).mean_price = some m →
      m = roundTo 2 (mean ((fetch commodity).map fun r => r.price)) := by
  have hmp : (analyze_commodity fetch commodity).mean_price
      = if ((fetch commodity).map fun r => r.price).isEmpty then none
        else some (roundTo 2 (mean ((fetch commodity).map fun r => r.price))) := rfl
  have hss : (analyze_commodity fetch commodity).sample_size
      = ((fetch commodity).map fun r => r.price).length := rfl
  rw [hmp, hss]
  by_cases h : ((fetch commodity).map fun r => r.price).isEmpty
  · rw [if_pos h]
    rw [List.isEmpty_iff_length_eq_zero] at h
    exact ⟨⟨fun _ => h, fun _ => rfl⟩, fun m hm => absurd hm (by simp)⟩
  · rw [if_neg h]
    rw [List.isEmpty_iff_length_eq_zero] at h
    exact ⟨⟨fun hc => absurd hc (by simp), fun hc => absurd hc h⟩,
      fun m hm => (Option.some_inj.mp hm).symm⟩

theorem mean_price_contract_witness :
    ((analyze_commodity (fun _ => [⟨7, "", "", "", "", ""⟩]) "rice").mean_price = none ↔
      (analyze_commodity (fun _ => [⟨7, "", "", "", "", ""⟩]) "rice").sample_size = 0) ∧
    roundTo 2 (mean [(7 : ℝ)])
      = roundTo 2 (mean ((((fun _ => [⟨7, "", "", "", "", ""⟩]) : String → List PriceRecord)
          "rice").map fun r => r.price)) :=
  ⟨(mean_price_contract (fun _ => [⟨7, "", "", "", "", ""⟩]) "rice").1,
    (mean_price_contract (fun _ => [⟨7, "", "", "", "", ""⟩]) "rice").2
      (roundTo 2 (mean [(7 : ℝ)])) rfl⟩

end Analyzer
